import Mathlib

/-!
# Verification of the Q-Chem log extraction core (arkane/qchem.py)

A shallow embedding of the `QchemLog` class from `arkane/qchem.py`.  A log
file is modelled as the list of its lines (`List String`); Python floats are
modelled as exact rationals (`ℚ`).  Each Python method becomes a Lean
function; raised exceptions and nontermination become values of `PyErr`
through the `Except` monad.

Every sequential `f.readline()` loop of the source is rendered as a
one-pass state machine over the line list: each step consumes exactly one
line, and the explicit state records the position inside the loop nest
(which section is open, how many header lines remain to skip, the running
accumulations).  The end of the list is Python's EOF, where `readline`
starts returning `''`: a source loop that keeps reading at EOF either
terminates after finitely many no-op reads (modelled by finishing the
state) or never exits (modelled by `PyErr.hang`), as noted case by case.
-/

namespace Qchem

/-- Outcomes of a Python run other than a normal return.
`inputError` is rmgpy's `InputError`; `valueError` models a failing
`float(...)` or `int(...)` conversion; `indexError` an out-of-range
sequence subscript; `unboundLocal` the `UnboundLocalError` raised when a
never-assigned local variable is read; `zeroDivision` a `ZeroDivisionError`;
`hang` marks a scan that loops forever (the source has `while` loops that
never exit when a closing banner is missing before EOF). -/
inductive PyErr where
  | inputError (msg : String)
  | valueError
  | indexError
  | unboundLocal
  | zeroDivision
  | hang
  deriving Repr, DecidableEq

/-- Whether `pat` occurs as a contiguous run inside the character list. -/
def charsContain (pat : List Char) : List Char → Bool
  | [] => pat.isEmpty
  | c :: cs => pat.isPrefixOf (c :: cs) || charsContain pat cs

/-- The Python substring test `pat in s`. -/
def strContains (s pat : String) : Bool := charsContain pat.data s.data

/-- Walk the characters once, building the current token in reverse and
stacking completed tokens. -/
def pysplitAux : List Char → List Char → List String → List String
  | [], cur, acc =>
    (if cur.isEmpty then acc else String.mk cur.reverse :: acc).reverse
  | c :: cs, cur, acc =>
    if c.isWhitespace then
      if cur.isEmpty then pysplitAux cs [] acc
      else pysplitAux cs [] (String.mk cur.reverse :: acc)
    else pysplitAux cs (c :: cur) acc

/-- Python `str.split()` with no argument: split on whitespace runs,
discarding empty pieces. -/
def pysplit (s : String) : List String := pysplitAux s.data [] []

/-- The value of a decimal digit character. -/
def digitVal : Char → ℕ
  | '0' => 0
  | '1' => 1
  | '2' => 2
  | '3' => 3
  | '4' => 4
  | '5' => 5
  | '6' => 6
  | '7' => 7
  | '8' => 8
  | '9' => 9
  | _ => 0

/-- Read a maximal run of decimal digits, returning the accumulated value,
the number of digits read and the remaining characters. -/
def readDigits : List Char → ℕ → ℕ → ℕ × ℕ × List Char
  | [], acc, n => (acc, n, [])
  | c :: cs, acc, n =>
    if c.isDigit then readDigits cs (10 * acc + digitVal c) (n + 1)
    else (acc, n, c :: cs)

/-- Read an optional leading sign; `true` means negative. -/
def readSign : List Char → Bool × List Char
  | '-' :: cs => (true, cs)
  | '+' :: cs => (false, cs)
  | cs => (false, cs)

/-- Parse an unsigned decimal mantissa `digits[.digits]` (at least one digit
overall), as accepted by Python's `float`. -/
def parseMagnitude (cs : List Char) : Option (ℚ × List Char) :=
  let (ip, nInt, rest) := readDigits cs 0 0
  match rest with
  | '.' :: rest2 =>
    let (fp, nFrac, rest3) := readDigits rest2 0 0
    if nInt + nFrac = 0 then none
    else some ((ip : ℚ) + (fp : ℚ) / (10 : ℚ) ^ nFrac, rest3)
  | _ => if nInt = 0 then none else some ((ip : ℚ), rest)

/-- Parse a trailing exponent part `[+|-]digits` and apply it. -/
def applyExponent (m : ℚ) (neg : Bool) (cs : List Char) : Option ℚ :=
  let (eneg, cs2) := readSign cs
  let (ev, nE, rest3) := readDigits cs2 0 0
  if nE = 0 ∨ rest3 ≠ [] then none
  else
    let scaled := if eneg then m / (10 : ℚ) ^ ev else m * (10 : ℚ) ^ ev
    some (if neg then -scaled else scaled)

/-- Python `float(s)` on a whitespace-free token, as an exact rational:
`[+|-] digits [. digits] [e|E [+|-] digits]`.  `none` models the
`ValueError` raised on anything else. -/
def parseFloat (s : String) : Option ℚ :=
  let (neg, cs) := readSign s.data
  match parseMagnitude cs with
  | none => none
  | some (m, rest) =>
    match rest with
    | [] => some (if neg then -m else m)
    | 'e' :: rest2 => applyExponent m neg rest2
    | 'E' :: rest2 => applyExponent m neg rest2
    | _ => none

/-- Parse every token of a list as a float, failing like a Python list
comprehension `[float(t) for t in data]` does on the first bad token. -/
def parseFloats : List String → Except PyErr (List ℚ)
  | [] => .ok []
  | t :: ts =>
    match parseFloat t with
    | none => .error .valueError
    | some q => (parseFloats ts).map (fun qs => q :: qs)

/-- Python `int(...)` applied to a float value: truncation toward zero. -/
def pyint (q : ℚ) : ℤ := if 0 ≤ q then ⌊q⌋ else ⌈q⌉

/-! ### External numeric constants

Modelled from the spec: the numeric constants (Hartree energy, Bohr radius,
Avogadro's number) live in the external `rmgpy.constants` module, which is
not part of this repository's core; the spec lists them among the consumed
collaborators.  Their exact numeric values influence none of the claims. -/

/-- Modelled from the spec: Hartree energy in J (`constants.E_h`). -/
def E_h : ℚ := 435974417 / 10 ^ 26

/-- Modelled from the spec: Avogadro's number in 1/mol (`constants.Na`). -/
def Na : ℚ := 602214179 * 10 ^ 15

/-- Modelled from the spec: Bohr radius in m (`constants.a0`). -/
def a0 : ℚ := 52917721092 / 10 ^ 21

/-! ### getNumberOfAtoms -/

/-- Banner of an atomic-coordinate block (lines 68 and 144). -/
def orientationBanner : String := "Standard Nuclear Orientation"

/-- The 52-dash delimiter `getNumberOfAtoms` scans for (line 70). -/
def atomCountDelim : String :=
  "----------------------------------------------------"

/-- Position inside `getNumberOfAtoms`'s loop nest: scanning for the
banner; discarding the `k` remaining header lines read by the
`for i in range(3)` of line 69 (the third read line is the first the
counting loop examines); or counting data rows with running count `n`. -/
inductive GnaState where
  | scan
  | skip (k : ℕ)
  | count (n : ℕ)

/-- The loop of `getNumberOfAtoms` (lines 65–73).  At EOF inside a block
(`skip` or `count`), the counting `while` of line 70 never exits — the
52-dash test fails on `''` forever — so the Python call hangs (`none`).
A block counted to 0 resumes the outer scan, which also rechecks the
`Natoms == 0` condition. -/
def gnaLoop : GnaState → List String → Option ℕ
  | .scan, [] => some 0
  | .scan, l :: ls =>
    if strContains l orientationBanner then gnaLoop (.skip 2) ls
    else gnaLoop .scan ls
  | .skip _, [] => none
  | .skip k, _ :: ls =>
    if k ≤ 1 then gnaLoop (.count 0) ls else gnaLoop (.skip (k - 1)) ls
  | .count _, [] => none
  | .count n, l :: ls =>
    if strContains l atomCountDelim then
      if n = 0 then gnaLoop .scan ls else some n
    else gnaLoop (.count (n + 1)) ls

/-- `QchemLog.getNumberOfAtoms`: the number of atoms in the first nonempty
coordinate block, 0 if none; `none` when the Python scan never terminates. -/
def getNumberOfAtoms (log : List String) : Option ℕ := gnaLoop .scan log

/-! ### loadForceConstantMatrix -/

/-- A dense matrix as a row list; the source uses a `numpy` array of shape
`(Nrows, Nrows)` with `Nrows = 3 * Natoms`. -/
abbrev Mat := List (List ℚ)

/-- `numpy.zeros((n, n))`. -/
def zeros (n : ℕ) : Mat := List.replicate n (List.replicate n (0 : ℚ))

/-- The unit-conversion factor the source hardcodes on line 108:
`4.35974417e-18 / 5.291772108e-11**2` (Hartree energy over Bohr radius
squared), turning Hartree/Bohr^2 into J/m^2. -/
def hessianFactor : ℚ := (435974417 / 10 ^ 26) / (5291772108 / 10 ^ 20) ^ 2

/-- `F *= hessianFactor`, applied entrywise as numpy does. -/
def scaleMat (F : Mat) : Mat := F.map (fun row => row.map (· * hessianFactor))

/-- Whether a line carries one of the two Hessian banners of line 96. -/
def isHessBanner (l : String) : Bool :=
  strContains l "Final Hessian." || strContains l "Hessian of the SCF Energy"

/-- `F[j, c] = v` on the row-list matrix (bounds already checked). -/
def setEntry (F : Mat) (j c : ℕ) (v : ℚ) : Mat :=
  match F.get? j with
  | none => F
  | some row => F.set j (row.set c v)

/-- The inner `for k in range(len(data)-1)` loop of line 104: write token
`k+1` of the data row into column `6*i + k` of row `j`.  The float
conversion happens first (a bad token raises `ValueError`); a column index
at or beyond `Nrows` raises numpy's `IndexError`. -/
def fillRowAux (Nrows j base : ℕ) : Mat → List String → ℕ → Except PyErr Mat
  | F, [], _ => .ok F
  | F, t :: ts, k =>
    match parseFloat t with
    | none => .error .valueError
    | some v =>
      if base + k < Nrows then
        fillRowAux Nrows j base (setEntry F j (base + k) v) ts (k + 1)
      else .error .indexError

/-- Process one matrix-element row of chunk `i` (tokens after the leading
row-index token). -/
def fillRow (Nrows j i : ℕ) (F : Mat) (data : List String) : Except PyErr Mat :=
  fillRowAux Nrows j (6 * i) F data.tail 0

/-- The number of column chunks, `int(math.ceil(Nrows / 6.0))` (line 98). -/
def nChunks (Nrows : ℕ) : ℕ := (Nrows + 5) / 6

/-- Position inside `loadForceConstantMatrix`'s loop nest: scanning for a
Hessian banner; about to discard the header row of chunk `i` with `rem`
further chunks pending; or reading matrix row `j` of chunk `i`.  The
partially filled matrix of the open block rides along. -/
inductive FcmState where
  | scan
  | header (rem i : ℕ) (F : Mat)
  | rows (rem i j : ℕ) (F : Mat)

/-- The loop of `loadForceConstantMatrix` (lines 93–109).  On a banner the
matrix is re-zeroed, superseding any earlier block; after the chunk loops
the block is scaled by `hessianFactor` and kept.  At EOF inside a block the
remaining reads return `''`, whose empty token list makes every remaining
row a no-op, after which the outer `while` exits: the partial block, scaled,
is the result. -/
def fcmLoop (Nrows : ℕ) : FcmState → Option Mat → List String → Except PyErr (Option Mat)
  | .scan, F, [] => .ok F
  | .scan, F, l :: ls =>
    if isHessBanner l then
      match nChunks Nrows with
      | 0 => fcmLoop Nrows .scan (some (scaleMat (zeros Nrows))) ls
      | rem + 1 => fcmLoop Nrows (.header rem 0 (zeros Nrows)) F ls
    else fcmLoop Nrows .scan F ls
  | .header _ _ F, _, [] => .ok (some (scaleMat F))
  | .header rem i F, F0, _ :: ls => fcmLoop Nrows (.rows rem i 0 F) F0 ls
  | .rows _ _ _ F, _, [] => .ok (some (scaleMat F))
  | .rows rem i j F, F0, l :: ls =>
    match fillRow Nrows j i F (pysplit l) with
    | .error e => .error e
    | .ok F2 =>
      if j + 1 < Nrows then fcmLoop Nrows (.rows rem i (j + 1) F2) F0 ls
      else
        match rem with
        | 0 => fcmLoop Nrows .scan (some (scaleMat F2)) ls
        | rem2 + 1 => fcmLoop Nrows (.header rem2 (i + 1) F2) F0 ls

/-- `QchemLog.loadForceConstantMatrix`: `ok none` when no Hessian banner is
present; otherwise the last block, scaled by `hessianFactor`.  The atom
count is read first (line 90) to size the matrix; a hanging atom-count scan
hangs the whole call.  The `header`/`rows` states ignore the accumulated
`Option Mat`, which a fresh banner has already superseded. -/
def loadForceConstantMatrix (log : List String) : Except PyErr (Option Mat) :=
  match getNumberOfAtoms log with
  | none => .error .hang
  | some natoms => fcmLoop (3 * natoms) .scan none log

/-- A standalone rendering of the matrix-row loop (line 102): read `rem`
more data rows of chunk `i`, the next one into row `j`; missing lines are
EOF reads, i.e. `''`.  Used to state what one Hessian block parses to,
independently of the surrounding scan. -/
def fcmRows (Nrows i : ℕ) : ℕ → ℕ → Mat → List String → Except PyErr (Mat × List String)
  | 0, _, F, lines => .ok (F, lines)
  | rem + 1, j, F, lines =>
    match fillRow Nrows j i F (pysplit (lines.headD "")) with
    | .error e => .error e
    | .ok F2 => fcmRows Nrows i rem (j + 1) F2 lines.tail

/-- A standalone rendering of the chunk loop (line 98): process `count`
chunks starting at chunk index `i`, each one header line plus `Nrows` data
rows.  Returns the filled (unscaled) matrix and the unconsumed lines. -/
def fcmChunks (Nrows : ℕ) : ℕ → ℕ → Mat → List String → Except PyErr (Mat × List String)
  | 0, _, F, lines => .ok (F, lines)
  | count + 1, i, F, lines =>
    match fcmRows Nrows i Nrows 0 F lines.tail with
    | .error e => .error e
    | .ok (F2, rest2) => fcmChunks Nrows count (i + 1) F2 rest2

/-! ### loadGeometry -/

/-- The completion banner `loadGeometry` requires (line 131). -/
def jobTimeBanner : String := "Total job time:"

/-- The 12-dash delimiter ending a geometry data block (line 146). -/
def geomDelim : String := "------------"

/-- Parse one geometry data row (lines 147–149): `data[1]` is the element
symbol (`IndexError` when fewer than two tokens), the remaining tokens are
coordinates (`ValueError` on a bad float). -/
def parseGeomRow (l : String) : Except PyErr (String × List ℚ) :=
  match pysplit l with
  | _ :: sym :: rest => (parseFloats rest).map (fun cs => (sym, cs))
  | _ => .error .indexError

/-- The row loop of lines 145–152: parse rows until a line containing the
12-dash delimiter (or the end of the list — a `for` loop, so no hang). -/
def geomRows : List String → Except PyErr (List (String × List ℚ))
  | [] => .ok []
  | l :: ls =>
    if strContains l geomDelim then .ok []
    else
      match parseGeomRow l with
      | .error e => .error e
      | .ok row => (geomRows ls).map (fun rows => row :: rows)

/-- The reversed index scan of lines 142–154: examine indices `i-1, …, 0`;
at the first banner whose block parses to at least one row, stop with those
rows; blocks with zero rows are skipped and the scan continues. -/
def geomScanAux (log : List String) : ℕ → Except PyErr (List (String × List ℚ))
  | 0 => .ok []
  | i + 1 =>
    if strContains (log.getD i "") orientationBanner then
      match geomRows (log.drop (i + 3)) with
      | .error e => .error e
      | .ok rows => if rows.isEmpty then geomScanAux log i else .ok rows
    else geomScanAux log i

/-- `QchemLog.loadGeometry`, parameterised by the external periodic-table
lookup `gem` (the collaborating `get_element_mass`, which returns a mass and
an atomic number for a symbol).  Returns `(coordinates, atomic numbers,
masses)`.  Fails first when the completion banner is missing, and with the
geometry-not-found error when zero atoms were parsed. -/
def loadGeometry (path : String) (gem : String → ℚ × ℤ) (log : List String) :
    Except PyErr (List (List ℚ) × List ℤ × List ℚ) :=
  if ¬ log.any (fun l => strContains l jobTimeBanner) then
    .error (.inputError
      ("Could not find a successfully completed Qchem job in Qchem output file "
        ++ path))
  else
    match geomScanAux log log.length with
    | .error e => .error e
    | .ok rows =>
      if rows.isEmpty then
        .error (.inputError
          ("Unable to read atoms from Qchem geometry output file " ++ path))
      else
        .ok (rows.map (fun r => r.2), rows.map (fun r => (gem r.1).2),
          rows.map (fun r => (gem r.1).1))

/-! ### loadEnergy and loadZeroPointEnergy -/

/-- The scanning loop of `loadEnergy` (lines 274–287): keep the last value
found on a `Final energy is` line, token 3, times `E_h * Na`. -/
def energyScan (acc : Option ℚ) : List String → Except PyErr (Option ℚ)
  | [] => .ok acc
  | l :: ls =>
    if strContains l "Final energy is" then
      match (pysplit l).get? 3 with
      | none => .error .indexError
      | some t =>
        match parseFloat t with
        | none => .error .valueError
        | some q => energyScan (some (q * E_h * Na)) ls
    else energyScan acc ls

/-- `QchemLog.loadEnergy`.  The `frequencyScaleFactor` argument is accepted
but never used by the source (its only mention is commented out). -/
def loadEnergy (frequencyScaleFactor : ℚ := 1) (log : List String) : Except PyErr ℚ :=
  match energyScan none log with
  | .error e => .error e
  | .ok none => .error (.inputError "Unable to find energy in Qchem output file.")
  | .ok (some e) => .ok e

/-- The scanning loop of `loadZeroPointEnergy` (lines 305–317): keep the
last value on a `Zero point vibrational energy` line, token 4, times 4184
(kcal/mol to J/mol). -/
def zpeScan (acc : Option ℚ) : List String → Except PyErr (Option ℚ)
  | [] => .ok acc
  | l :: ls =>
    if strContains l "Zero point vibrational energy" then
      match (pysplit l).get? 4 with
      | none => .error .indexError
      | some t =>
        match parseFloat t with
        | none => .error .valueError
        | some q => zpeScan (some (q * 4184)) ls
    else zpeScan acc ls

/-- `QchemLog.loadZeroPointEnergy`.  As with `loadEnergy`, the
`frequencyScaleFactor` argument is accepted but never used. -/
def loadZeroPointEnergy (frequencyScaleFactor : ℚ := 1) (log : List String) :
    Except PyErr ℚ :=
  match zpeScan none log with
  | .error e => .error e
  | .ok none =>
    .error (.inputError "Unable to find zero-point energy in Qchem output file.")
  | .ok (some z) => .ok z

/-! ### loadScanEnergies -/

/-- The 17-dash delimiter ending the potential-scan table (line 340). -/
def scanDelim : String := "-----------------"

/-- Position in `loadScanEnergies`'s loop: the very first line is only
banner-checked (it is read before the loop); every later top-level line is
first checked for the SCF-failure marker (it was read by the bottom
`readline` of line 348, line 349 tests it) and then banner-checked on the
next iteration; inside the table each line is a data row until the 17-dash
delimiter. -/
inductive ScanPhase where
  | first
  | outer
  | table

/-- The loop of `loadScanEnergies` (lines 335–351).  A data row is fully
converted to floats (line 343); `values[0]` and `values[1]` must exist —
in particular EOF inside the table turns the line into `''` with no
tokens, raising `IndexError` rather than hanging.  The SCF-failure marker
stops the scan early, keeping the energies gathered so far. -/
def scanLoop : ScanPhase → List ℚ → List String → Except PyErr (List ℚ)
  | .first, acc, [] => .ok acc
  | .first, acc, l :: ls =>
    if strContains l "Summary of potential scan:" then scanLoop .table acc ls
    else scanLoop .outer acc ls
  | .outer, acc, [] => .ok acc
  | .outer, acc, l :: ls =>
    if strContains l "SCF failed to converge" then .ok acc
    else if strContains l "Summary of potential scan:" then scanLoop .table acc ls
    else scanLoop .outer acc ls
  | .table, _, [] => .error .indexError
  | .table, acc, l :: ls =>
    if strContains l scanDelim then scanLoop .outer acc ls
    else
      match parseFloats (pysplit l) with
      | .error e => .error e
      | .ok (_ :: v1 :: _) => scanLoop .table (acc ++ [v1]) ls
      | .ok _ => .error .indexError

/-- Minimum of a value list, as `numpy.min` on a nonempty array. -/
def listMin (x : ℚ) (xs : List ℚ) : ℚ := xs.foldl min x

/-- `QchemLog.loadScanEnergies`, restricted to the energy list (the claims
mention only the energies).  After the scan, `numpy.min` of an empty array
raises (`ValueError`, line 362); energies are shifted by the minimum and
converted with `E_h * Na` (line 363); finally the angle grid of line 364
divides by `len(Vlist) - 1`, a `ZeroDivisionError` when exactly one energy
was read.  The collaborating `check_conformer_energy` only emits a log
warning and is omitted.  The returned synthetic angle grid (a pure function
of the list length, involving `2*pi`) is not modelled: no claim mentions
it. -/
def loadScanEnergies (log : List String) : Except PyErr (List ℚ) :=
  match scanLoop .first [] log with
  | .error e => .error e
  | .ok [] => .error .valueError
  | .ok (v :: vs) =>
    let m := listMin v vs
    let out := (v :: vs).map (fun x => (x - m) * (E_h * Na))
    if out.length = 1 then .error .zeroDivision else .ok out

/-! ### loadNegativeFrequency -/

/-- The frequency marker of lines 377 and 201 (note the leading space). -/
def freqMarker : String := " Frequency:"

/-- `QchemLog.loadNegativeFrequency`: find the first marker line, parse its
token 1, return it when negative, otherwise raise `InputError`.  When no
line matches, the `frequency` local is never assigned and the final
comparison on line 384 raises `UnboundLocalError`. -/
def loadNegativeFrequency (path : String) (log : List String) : Except PyErr ℚ :=
  match log with
  | [] => .error .unboundLocal
  | l :: ls =>
    if strContains l freqMarker then
      match (pysplit l).get? 1 with
      | none => .error .indexError
      | some t =>
        match parseFloat t with
        | none => .error .valueError
        | some q =>
          if q < 0 then .ok q
          else
            .error (.inputError
              ("Unable to find imaginary frequency in QChem output file " ++ path))
    else loadNegativeFrequency path ls

/-! ### loadConformer -/

/-- The statistical-mechanics mode descriptors `loadConformer` builds
(`HarmonicOscillator`, `IdealGasTranslation`, `LinearRotor`,
`NonlinearRotor` from the external `rmgpy.statmech`).  The linear rotor's
moment is `numpy.sqrt` of a product, hence a real number. -/
inductive Mode where
  | osc (frequencies : List ℚ)
  | trans (mass : ℚ)
  | linRot (inertia : ℝ) (symmetry : ℤ)
  | nonlinRot (inertia : List ℚ) (symmetry : ℤ)

/-- The external `rmgpy.statmech.Conformer` record, as far as
`loadConformer` populates it. -/
structure Conformer where
  E0 : ℚ
  modes : List Mode
  spinMultiplicity : ℤ
  opticalIsomers : ℤ

/-- The mutable locals of `loadConformer`'s scanning loop. -/
structure ConfState where
  symmetry : Option ℤ
  spin : ℤ
  inertia : List ℚ
  freq : List Mode
  mmass : List Mode
  rot : List Mode

/-- `(constants.a0 / 1e-10) ** 2` of lines 247 and 253: Bohr^2 to Å^2. -/
def bohrConv : ℚ := (a0 / (1 / 10 ^ 10)) ^ 2

/-- Python `list.remove(x)`: drop the first element equal to `x` (the
source only calls it under a guard that makes `x` the head). -/
def removeFirst (x : ℚ) : List ℚ → List ℚ
  | [] => []
  | y :: ys => if y = x then ys else y :: removeFirst x ys

/-- Lines 239–258: the rotor-classification step run once per outer
iteration.  With recorded eigenvalues, default the symmetry number to 1,
then: first eigenvalue equal to zero ⇒ drop it, convert the remaining two
by `bohrConv` and take `numpy.sqrt` of their product (`LinearRotor`);
otherwise convert all three (`NonlinearRotor`, whose kept instance is the
one built on the last pass of the `for i in range(3)` loop, when every
entry has been converted).  Fewer eigenvalues than the conversion loops
touch raise `IndexError`. -/
noncomputable def processInertia (inertia : List ℚ) (symmetry : Option ℤ) :
    Except PyErr (Option Mode × Option ℤ) :=
  match inertia with
  | [] => .ok (none, symmetry)
  | i0 :: _ =>
    let sym := symmetry.getD 1
    if i0 = 0 then
      match removeFirst 0 inertia with
      | a :: b :: _ =>
        .ok (some (.linRot (Real.sqrt (((a * bohrConv : ℚ) : ℝ) *
          ((b * bohrConv : ℚ) : ℝ))) sym), some sym)
      | _ => .error .indexError
    else
      match inertia with
      | a :: b :: c :: extra =>
        .ok (some (.nonlinRot (a * bohrConv :: b * bohrConv ::
          c * bohrConv :: extra) sym), some sym)
      | _ => .error .indexError

/-- Lines 239–258 as a state transformer: append the produced rotor (if
any) to `rot`, keep the possibly defaulted symmetry number, reset the
recorded eigenvalues. -/
noncomputable def inertiaStep (st : ConfState) : Except PyErr ConfState :=
  match processInertia st.inertia st.symmetry with
  | .error e => .error e
  | .ok (optMode, sym2) =>
    .ok { st with
            symmetry := sym2
            inertia := []
            rot := st.rot ++ optMode.toList }

/-- Lines 211–212: `frequencies[0]` on an empty accumulation raises
`IndexError`; a negative first value is removed before the oscillator is
built. -/
def finalizeFrequencies (raw : List ℚ) : Except PyErr (List ℚ) :=
  match raw with
  | [] => .error .indexError
  | x :: rest => .ok (if x < 0 then rest else x :: rest)

/-- End banner of the vibrational-analysis section (line 194). -/
def qchemEndBanner : String := "Thank you very much for using Q-Chem."

/-- Banner opening a frequency sub-block (line 198). -/
def freqSectionBanner : String := "VIBRATIONAL FREQUENCIES (CM**-1)"

/-- Banner ending a frequency sub-block (line 200). -/
def thermoBanner : String := "STANDARD THERMODYNAMIC QUANTITIES AT"

/-- Lines 201–207: a ` Frequency:` line extends the accumulation with its
last 3, 2 or 1 tokens according to a token count of 4, 3 or 2 — in each
case the tokens after the first; any other token count is ignored. -/
def freqExtend (acc : List ℚ) (line : String) : Except PyErr (List ℚ) :=
  if strContains line freqMarker then
    let toks := pysplit line
    if toks.length = 4 ∨ toks.length = 3 ∨ toks.length = 2 then
      (parseFloats (toks.drop 1)).map (fun qs => acc ++ qs)
    else .ok acc
  else .ok acc

/-- Outcome of examining one line of a frequency sub-block. -/
inductive FreqOut where
  | done (finalized : List ℚ)
  | more (acc : List ℚ)

/-- One iteration of the `while` of line 200: the thermodynamic banner ends
the sub-block (finalizing the accumulation, lines 209–214); otherwise the
line may extend the accumulation. -/
def freqStep (acc : List ℚ) (l : String) : Except PyErr FreqOut :=
  if strContains l thermoBanner then
    match finalizeFrequencies acc with
    | .error e => .error e
    | .ok fs => .ok (.done fs)
  else
    match freqExtend acc l with
    | .error e => .error e
    | .ok acc2 => .ok (.more acc2)

/-- Marker of a molecular-mass line (line 218). -/
def massMarker : String := "Molecular Mass:"

/-- Marker of an inertia-eigenvalue line (line 225). -/
def eigMarker : String := "Eigenvalues --"

/-- Marker of a rotational-symmetry-number line (line 229). -/
def rotSymMarker : String := "Rotational Symmetry Number is"

/-- Lines 217–231: the non-consuming dispatches of the inner loop — the
molecular mass (token 2), the inertia eigenvalues (the last up to three
tokens, `split()[-3:]`), and, when `symfromlog` is set, the rotational
symmetry number (last token, truncated to int). -/
def confLineUpdate (symfromlog : Bool) (st : ConfState) (line : String) :
    Except PyErr ConfState :=
  if strContains line massMarker then
    match (pysplit line).get? 2 with
    | none => .error .indexError
    | some t =>
      match parseFloat t with
      | none => .error .valueError
      | some m => .ok { st with mmass := st.mmass ++ [Mode.trans m] }
  else if strContains line eigMarker then
    let toks := pysplit line
    match parseFloats (toks.drop (toks.length - 3)) with
    | .error e => .error e
    | .ok vals => .ok { st with inertia := vals }
  else if strContains line rotSymMarker ∧ symfromlog then
    match (pysplit line).getLast? with
    | none => .error .indexError
    | some t =>
      match parseFloat t with
      | none => .error .valueError
      | some q => .ok { st with symmetry := some (pyint q) }
  else .ok st

/-- Banner of the molecule specification block (line 182). -/
def moleculeBanner : String := "$molecule"

/-- Banner of the vibrational-analysis section (line 188). -/
def vibAnalysisBanner : String := "VIBRATIONAL ANALYSIS"

/-- Lines 183–186: the line read after a `$molecule` trigger; when it has
exactly two tokens, its second token (via `int(float(...))`) becomes the
spin multiplicity. -/
def molParse (st : ConfState) (l2 : String) : Except PyErr ConfState :=
  if (pysplit l2).length = 2 then
    match parseFloat ((pysplit l2).getD 1 "") with
    | none => .error .valueError
    | some q => .ok { st with spin := pyint q }
  else .ok st

/-- Position inside `loadConformer`'s loop nest: top-level dispatch
(line 180); the extra line consumed by a `$molecule` trigger (line 183);
the vibrational-analysis inner loop (line 191); a frequency sub-block with
its running accumulation (line 200); or the line read on line 209 and
immediately overwritten by the inner loop's own read of line 234 — skipped
unexamined. -/
inductive ConfPhase where
  | outer
  | mol
  | inner
  | freqAcc (acc : List ℚ)
  | freqSkip

/-- The loop nest of `loadConformer` (lines 179–258).  The
rotor-classification step (`inertiaStep`) runs at the end of every *outer*
iteration — after the `$molecule` extra line, after the inner loop ends (by
its break banner or by EOF), or after a plain unmatched line — mirroring
the `if len(inertia)` block's position at the bottom of the outer `while`.
At EOF with a frequency sub-block open, the `while` of line 200 never exits
(`hang`); every other phase winds down normally at EOF, with the pending
classification step still running where the outer iteration was still open.
The `modes = []` assignment of line 189 has no observable effect (line 262
rebuilds the list) and is not modelled. -/
noncomputable def confLoop (symfromlog : Bool) :
    ConfPhase → ConfState → List String → Except PyErr ConfState
  | .outer, st, [] => .ok st
  | .outer, st, l :: ls =>
    if strContains l moleculeBanner ∧ st.spin = 0 then
      confLoop symfromlog .mol st ls
    else if strContains l vibAnalysisBanner then
      confLoop symfromlog .inner st ls
    else
      match inertiaStep st with
      | .error e => .error e
      | .ok st2 => confLoop symfromlog .outer st2 ls
  | .mol, st, [] => inertiaStep st
  | .mol, st, l2 :: ls =>
    match molParse st l2 with
    | .error e => .error e
    | .ok st2 =>
      match inertiaStep st2 with
      | .error e => .error e
      | .ok st3 => confLoop symfromlog .outer st3 ls
  | .inner, st, [] => inertiaStep st
  | .inner, st, l :: ls =>
    if strContains l qchemEndBanner then
      match inertiaStep st with
      | .error e => .error e
      | .ok st2 => confLoop symfromlog .outer st2 ls
    else if strContains l freqSectionBanner then
      match freqStep [] l with
      | .error e => .error e
      | .ok (.done fs) =>
        confLoop symfromlog .freqSkip
          { st with freq := st.freq ++ [Mode.osc fs] } ls
      | .ok (.more acc2) => confLoop symfromlog (.freqAcc acc2) st ls
    else
      match confLineUpdate symfromlog st l with
      | .error e => .error e
      | .ok st2 => confLoop symfromlog .inner st2 ls
  | .freqAcc _, _, [] => .error .hang
  | .freqAcc acc, st, l :: ls =>
    match freqStep acc l with
    | .error e => .error e
    | .ok (.done fs) =>
      confLoop symfromlog .freqSkip
        { st with freq := st.freq ++ [Mode.osc fs] } ls
    | .ok (.more acc2) => confLoop symfromlog (.freqAcc acc2) st ls
  | .freqSkip, st, [] => inertiaStep st
  | .freqSkip, st, _ :: ls => confLoop symfromlog .inner st ls

/-- `QchemLog.loadConformer` (lines 169–263), with the same defaults as the
Python signature (`symmetry=None`, `spinMultiplicity=0`, `opticalIsomers=1`,
`symfromlog=None`, i.e. false).  `E0` is initialised to 0.0 on line 177 and
never reassigned; the returned record carries `E0 * 0.001` kJ/mol and the
mode list `mmass + rot + freq` (line 262). -/
noncomputable def loadConformer (symmetry : Option ℤ := none)
    (spinMultiplicity : ℤ := 0) (opticalIsomers : ℤ := 1)
    (symfromlog : Bool := false) (log : List String) :
    Except PyErr Conformer :=
  let E0 : ℚ := 0
  match confLoop symfromlog .outer
      { symmetry := symmetry, spin := spinMultiplicity, inertia := [],
        freq := [], mmass := [], rot := [] } log with
  | .error e => .error e
  | .ok st =>
    .ok { E0 := E0 * (1 / 1000), modes := st.mmass ++ st.rot ++ st.freq,
          spinMultiplicity := st.spin, opticalIsomers := opticalIsomers }

/-! ### Concrete logs used as explicit inputs -/

/-- A log whose vibrational-analysis section records the inertia
eigenvalues 1.0, 0.0, 2.0: the smallest is zero but the first is not. -/
def c1log : List String :=
  ["VIBRATIONAL ANALYSIS", " Eigenvalues --    1.0   0.0   2.0"]

/-- A log whose frequency block accumulates -5.0, -3.0, 2.0: two negative
values, of which finalization strips only the first. -/
def c4log : List String :=
  ["VIBRATIONAL ANALYSIS", "VIBRATIONAL FREQUENCIES (CM**-1)",
   " Frequency:  -5.0  -3.0   2.0", "STANDARD THERMODYNAMIC QUANTITIES AT"]

/-- A completed log with two well-formed geometry blocks of different
sizes: 2 atoms first, 3 atoms last. -/
def c7log : List String :=
  ["Total job time:",
   "Standard Nuclear Orientation", "h1", "h2",
   "   1  C   0.0  0.0  0.0",
   "   2  H   1.0  0.0  0.0",
   "----------------------------------------------------",
   "Standard Nuclear Orientation", "h1", "h2",
   "   1  C   0.0  0.0  0.0",
   "   2  H   1.0  0.0  0.0",
   "   3  H   2.0  0.0  0.0",
   "----------------------------------------------------"]

/-- A fixed periodic-table stub standing in for the external
`get_element_mass` collaborator in concrete runs. -/
def gemEx : String → ℚ × ℤ :=
  fun s => if s = "C" then (12, 6) else if s = "H" then (1, 1) else (0, 0)

/-- A one-atom log whose Hessian banner sits at the very end: the block is
cut off by EOF, so the zero matrix (scaled) is returned. -/
def waLog : List String :=
  ["Standard Nuclear Orientation", "h1", "h2",
   "   1  C   0.0  0.0  0.0",
   "----------------------------------------------------",
   "Final Hessian."]

/-- The single geometry row of the one-block witness log. -/
def wbRows : List String := ["   1  C   0.0  0.0  0.0"]

/-- The 52-dash delimiter line closing a `Standard Nuclear Orientation`
block. -/
def dash52 : String := "----------------------------------------------------"

/-! ### Helper lemmas -/

theorem isPrefixOf_self (p : List Char) : p.isPrefixOf p = true := by
  induction p with
  | nil => rfl
  | cons c cs ih => simp [List.isPrefixOf, ih]

theorem charsContain_append_self (p xs : List Char) :
    charsContain p (xs ++ p) = true := by
  induction xs with
  | nil =>
    cases p with
    | nil => rfl
    | cons c cs => simp [charsContain, isPrefixOf_self]
  | cons x xs ih => simp [charsContain, ih]

/-- Appending the path to a message keeps the path visible as a substring. -/
theorem strContains_append_right (msg path : String) :
    strContains (msg ++ path) path = true := by
  have h : (msg ++ path).data = msg.data ++ path.data := String.data_append msg path
  rw [strContains, h]
  exact charsContain_append_self _ _

theorem listMin_le : ∀ (xs : List ℚ) (x y : ℚ), y ∈ x :: xs → listMin x xs ≤ y := by
  intro xs
  induction xs with
  | nil =>
    intro x y hy
    simp at hy
    simp [listMin, hy]
  | cons a as ih =>
    intro x y hy
    have hstep : listMin x (a :: as) = listMin (min x a) as := rfl
    have hbase : listMin (min x a) as ≤ min x a := ih (min x a) (min x a) (by simp)
    rcases List.mem_cons.1 hy with h1 | h2
    · subst h1
      exact hstep ▸ hbase.trans (min_le_left _ _)
    · rcases List.mem_cons.1 h2 with h3 | h4
      · subst h3
        exact hstep ▸ hbase.trans (min_le_right _ _)
      · exact hstep ▸ ih (min x a) y (List.mem_cons_of_mem _ h4)

theorem listMin_mem : ∀ (xs : List ℚ) (x : ℚ), listMin x xs ∈ x :: xs := by
  intro xs
  induction xs with
  | nil => intro x; simp [listMin]
  | cons a as ih =>
    intro x
    have hstep : listMin x (a :: as) = listMin (min x a) as := rfl
    rcases List.mem_cons.1 (ih (min x a)) with h1 | h2
    · rcases min_choice x a with hx | ha
      · rw [hstep, h1, hx]
        simp
      · rw [hstep, h1, ha]
        simp
    · rw [hstep]
      simp [List.mem_cons_of_mem, h2]

/-! ### Claim theorems -/

/-- C8: the results of `loadEnergy` and `loadZeroPointEnergy` — including
whether they fail — do not depend on the `frequencyScaleFactor` argument:
two calls on the same log with any two factors are identical.  (The source
never reads the parameter; its only use is commented out.) -/
theorem c8_scale_factor_independence (f1 f2 : ℚ) (log : List String) :
    loadEnergy f1 log = loadEnergy f2 log ∧
    loadZeroPointEnergy f1 log = loadZeroPointEnergy f2 log :=
  ⟨rfl, rfl⟩

/-- C9: every `Conformer` returned by `loadConformer` has electronic energy
`E0 = 0` kJ/mol, for every log and every combination of caller arguments:
the method never reads an energy from the log (`E0` is set to 0.0 on
line 177 and only rescaled by 0.001 on line 263). -/
theorem c9_zero_electronic_energy (sym : Option ℤ) (spin oi : ℤ) (sfl : Bool)
    (log : List String) (conf : Conformer) :
    loadConformer sym spin oi sfl log = .ok conf → conf.E0 = 0 := by
  intro h
  unfold loadConformer at h
  rcases hc : confLoop sfl .outer
      { symmetry := sym, spin := spin, inertia := [],
        freq := [], mmass := [], rot := [] } log with e | st <;>
    rw [hc] at h <;> simp at h
  rw [← h]

/-- C9 witness: on the empty log, `loadConformer` succeeds and the returned
record's `E0` is zero. -/
theorem c9_zero_electronic_energy_witness :
    ({ E0 := (0 : ℚ) * (1 / 1000), modes := [], spinMultiplicity := 0,
       opticalIsomers := 1 } : Conformer).E0 = 0 :=
  c9_zero_electronic_energy none 0 1 false [] _ rfl

/-- C10: on a log with no ` Frequency:` line at all,
`loadNegativeFrequency` never reaches its documented failure branch: the
`frequency` local is never assigned, so the final check raises an
undefined-variable error (`UnboundLocalError`), not the
no-imaginary-frequency `InputError`. -/
theorem c10_unbound_local (path : String) (log : List String) :
    (∀ l ∈ log, strContains l freqMarker = false) →
    loadNegativeFrequency path log = .error .unboundLocal := by
  induction log with
  | nil => intro _; rfl
  | cons l ls ih =>
    intro h
    have hl := h l (by simp)
    simp only [loadNegativeFrequency, hl]
    simp only [Bool.false_eq_true, if_false]
    exact ih (fun p hp => h p (List.mem_cons_of_mem _ hp))

/-- C10 witness: a concrete marker-free log yields the unbound-variable
error. -/
theorem c10_unbound_local_witness :
    loadNegativeFrequency "p" ["hello", "world"] = .error .unboundLocal :=
  c10_unbound_local "p" ["hello", "world"] (by decide)

/-- C5: when the log has a first ` Frequency:` line whose token 1 parses to
a value `q`, `loadNegativeFrequency` fails with the no-imaginary-frequency
`InputError` (path in the message) iff `q` is non-negative, and returns `q`
when `q` is negative. -/
theorem c5_negative_frequency (path : String) (pre : List String) (l : String)
    (ls : List String) (t : String) (q : ℚ) :
    (∀ p ∈ pre, strContains p freqMarker = false) →
    strContains l freqMarker = true →
    (pysplit l).get? 1 = some t →
    parseFloat t = some q →
    ((loadNegativeFrequency path (pre ++ l :: ls) =
        .error (.inputError
          ("Unable to find imaginary frequency in QChem output file " ++ path)) ↔
      0 ≤ q) ∧
     (q < 0 → loadNegativeFrequency path (pre ++ l :: ls) = .ok q)) := by
  intro hpre hl ht hq
  induction pre with
  | nil =>
    simp only [List.nil_append, loadNegativeFrequency, hl, if_true, ht, hq]
    rcases lt_or_le q 0 with h0 | h0
    · rw [if_pos h0]
      constructor
      · simp
        linarith
      · intro _
        rfl
    · rw [if_neg (not_lt.2 h0)]
      constructor
      · simp [h0]
      · intro hc
        linarith
  | cons p ps ih =>
    have hp := hpre p (by simp)
    simp only [List.cons_append, loadNegativeFrequency, hp, Bool.false_eq_true,
      if_false]
    exact ih (fun x hx => hpre x (List.mem_cons_of_mem _ hx))

/-- C5 witness: a log whose first marker line carries -50.0 returns -50,
and the failure branch is equivalent to non-negativity there. -/
theorem c5_negative_frequency_witness :
    (loadNegativeFrequency "p" (["x"] ++ [" Frequency:  -50.0   3.0"]) =
        .error (.inputError
          ("Unable to find imaginary frequency in QChem output file " ++ "p")) ↔
      0 ≤ (-50 : ℚ)) ∧
    ((-50 : ℚ) < 0 →
      loadNegativeFrequency "p" (["x"] ++ [" Frequency:  -50.0   3.0"]) =
        .ok (-50)) :=
  c5_negative_frequency "p" ["x"] " Frequency:  -50.0   3.0" [] "-50.0" (-50)
    (by decide) (by decide) (by rfl)
    (by norm_num +decide [parseFloat, parseMagnitude, readDigits, readSign, digitVal])

/-- C2: a log without the completion banner makes `loadGeometry` fail with
the log-incomplete `InputError` (whose message carries the path) no matter
what else the log contains; a log with the banner from which the geometry
scan parses zero atoms fails with the geometry-not-found `InputError`. -/
theorem c2_geometry_errors (path : String) (gem : String → ℚ × ℤ)
    (log : List String) :
    ((∀ l ∈ log, strContains l jobTimeBanner = false) →
      loadGeometry path gem log =
        .error (.inputError
          ("Could not find a successfully completed Qchem job in Qchem output file "
            ++ path)) ∧
      strContains
        ("Could not find a successfully completed Qchem job in Qchem output file "
          ++ path) path = true) ∧
    ((∃ l ∈ log, strContains l jobTimeBanner = true) →
      geomScanAux log log.length = .ok [] →
      loadGeometry path gem log =
        .error (.inputError
          ("Unable to read atoms from Qchem geometry output file " ++ path))) := by
  constructor
  · intro h
    refine ⟨?_, strContains_append_right _ _⟩
    have hany : log.any (fun l => strContains l jobTimeBanner) = false := by
      simp only [List.any_eq_false]
      intro x hx
      simp [h x hx]
    simp [loadGeometry, hany]
  · intro hex hscan
    have hany : log.any (fun l => strContains l jobTimeBanner) = true := by
      rcases hex with ⟨l, hl, hcon⟩
      exact List.any_eq_true.2 ⟨l, hl, hcon⟩
    simp [loadGeometry, hany, hscan]

/-- C2 witness: a bannerless log fails log-incomplete; a log that is only
the completion banner parses zero atoms and fails geometry-not-found. -/
theorem c2_geometry_errors_witness :
    loadGeometry "p" gemEx ["hello"] =
      .error (.inputError
        ("Could not find a successfully completed Qchem job in Qchem output file "
          ++ "p")) ∧
    loadGeometry "p" gemEx ["Total job time:"] =
      .error (.inputError
        ("Unable to read atoms from Qchem geometry output file " ++ "p")) :=
  ⟨((c2_geometry_errors "p" gemEx ["hello"]).1 (by decide)).1,
   (c2_geometry_errors "p" gemEx ["Total job time:"]).2
     ⟨"Total job time:", by simp, by decide⟩ (by rfl)⟩

/-- C4 (amended): each frequency block finalized inside `loadConformer` is
the raw accumulation with the first value stripped when negative and kept
whole otherwise; the finalized set contains no negative value *provided*
the raw block carries no negative value beyond its first position.  (The
original claim's unconditional non-negativity fails: stripping removes one
leading value only.) -/
theorem c4_finalized_frequencies (raw out : List ℚ) :
    finalizeFrequencies raw = .ok out →
    ((∀ x ∈ raw.tail, 0 ≤ x) → ∀ y ∈ out, 0 ≤ y) ∧
    (∀ x0 xs, raw = x0 :: xs → x0 < 0 → out = xs) ∧
    (∀ x0 xs, raw = x0 :: xs → ¬ x0 < 0 → out = raw) := by
  intro h
  cases raw with
  | nil => simp [finalizeFrequencies] at h
  | cons x rest =>
    simp only [finalizeFrequencies, Except.ok.injEq] at h
    refine ⟨?_, ?_, ?_⟩
    · intro htail y hy
      rw [← h] at hy
      by_cases hx : x < 0
      · rw [if_pos hx] at hy
        exact htail y hy
      · rw [if_neg hx] at hy
        rcases List.mem_cons.1 hy with h1 | h2
        · subst h1
          exact not_lt.1 hx
        · exact htail y h2
    · intro x0 xs heq hneg
      injection heq with e1 e2
      subst e1; subst e2
      rw [← h, if_pos hneg]
    · intro x0 xs heq hneg
      injection heq with e1 e2
      subst e1; subst e2
      rw [← h, if_neg hneg]

/-- C4 counterexample: on `c4log` the raw frequency block accumulates
[-5, -3, 2]; finalization strips only the leading -5, so the produced
`FrequencySet` [-3, 2] still contains a negative wavenumber, contradicting
the claimed invariant of `loadConformer`. -/
theorem c4_counterexample :
    loadConformer none 0 1 false c4log =
      .ok { E0 := 0, modes := [Mode.osc [-3, 2]], spinMultiplicity := 0,
            opticalIsomers := 1 } ∧
    (-3 : ℚ) ∈ [(-3 : ℚ), 2] ∧ (-3 : ℚ) < 0 := by
  refine ⟨?_, by simp, by norm_num⟩
  have hf1 : parseFloats (pysplit " Frequency:  -5.0  -3.0   2.0").tail =
      .ok [-5, -3, 2] := by
    norm_num +decide [parseFloats, parseFloat, parseMagnitude, readDigits,
      readSign, digitVal, Except.map, pysplit, pysplitAux]
  norm_num +decide [c4log, loadConformer, confLoop, freqStep, freqExtend,
    finalizeFrequencies, inertiaStep, processInertia, hf1, Except.map]

/-- C4 witness: for the raw block [-5, 2, 3] — one leading negative, rest
non-negative — the finalized set [2, 3] is entirely non-negative. -/
theorem c4_finalized_frequencies_witness :
    finalizeFrequencies [-5, 2, 3] = .ok [2, 3] ∧ (0 : ℚ) ≤ 2 ∧ (0 : ℚ) ≤ 3 := by
  have hfin : finalizeFrequencies [-5, 2, 3] = .ok [2, 3] := by
    norm_num [finalizeFrequencies]
  have h := (c4_finalized_frequencies [-5, 2, 3] [2, 3] hfin).1 (by norm_num)
  exact ⟨hfin, h 2 (by simp), h 3 (by simp)⟩

/-- C6: whenever `loadScanEnergies` returns an energy list, every entry is
non-negative after the minimum shift and Hartree-to-J/mol conversion, the
entry at the original minimum is exactly 0, and the list is nonempty. -/
theorem c6_scan_energies (log : List String) (V : List ℚ) :
    loadScanEnergies log = .ok V →
    (∀ v ∈ V, 0 ≤ v) ∧ (0 : ℚ) ∈ V ∧ V ≠ [] := by
  intro h
  unfold loadScanEnergies at h
  rcases hs : scanLoop .first [] log with e | vs0 <;> rw [hs] at h
  · simp at h
  · rcases vs0 with _ | ⟨v, vs⟩
    · simp at h
    · simp only [] at h
      split at h
      · simp at h
      · simp only [Except.ok.injEq] at h
        rw [← h]
        have hpos : (0 : ℚ) < E_h * Na := by norm_num [E_h, Na]
        refine ⟨?_, ?_, by simp⟩
        · intro w hw
          rcases List.mem_map.1 hw with ⟨x, hx, hfx⟩
          rw [← hfx]
          have hle := listMin_le vs v x hx
          exact mul_nonneg (by linarith) hpos.le
        · refine List.mem_map.2 ⟨listMin v vs, listMin_mem vs v, by ring⟩

/-- C6 witness: a two-row scan with energies -5 and -3 Hartree returns
[0, 2·E_h·Na], which is non-negative with an exact zero. -/
theorem c6_scan_energies_witness :
    (∀ v ∈ [(0 : ℚ), 2 * (E_h * Na)], 0 ≤ v) ∧
    (0 : ℚ) ∈ [(0 : ℚ), 2 * (E_h * Na)] ∧
    [(0 : ℚ), 2 * (E_h * Na)] ≠ [] :=
  c6_scan_energies
    ["Summary of potential scan:", "  1.0  -5.0", "  2.0  -3.0",
     "-----------------"] [0, 2 * (E_h * Na)]
    (by norm_num +decide [loadScanEnergies, scanLoop, parseFloats, pysplit,
      pysplitAux, parseFloat, parseMagnitude, readDigits, readSign, digitVal,
      listMin, E_h, Na, Except.map])

/-- C1 (amended): the rotor-classification step of `loadConformer` treats
the rotor as Linear exactly when the *first* recorded eigenvalue is zero
(the source checks `inertia[0]`, not the minimum; in Q-Chem output the
eigenvalues appear in ascending order, where the two coincide): the zero is
dropped, the remaining two are converted by `bohrConv` and the moment is
the square root of their product (their geometric mean); otherwise all
three are converted into a Nonlinear descriptor.  For eigenvalues
[0, a, a] the Linear moment is exactly `a·bohrConv`.  The symmetry number
defaults to 1 when absent. -/
theorem c1_rotor_classification (i0 i1 i2 : ℚ) (sym : Option ℤ) :
    (i0 = 0 →
      processInertia [i0, i1, i2] sym =
        .ok (some (.linRot
          (Real.sqrt (((i1 * bohrConv : ℚ) : ℝ) * ((i2 * bohrConv : ℚ) : ℝ)))
          (sym.getD 1)), some (sym.getD 1))) ∧
    (i0 ≠ 0 →
      processInertia [i0, i1, i2] sym =
        .ok (some (.nonlinRot [i0 * bohrConv, i1 * bohrConv, i2 * bohrConv]
          (sym.getD 1)), some (sym.getD 1))) ∧
    (∀ a : ℚ, 0 ≤ a →
      processInertia [0, a, a] sym =
        .ok (some (.linRot ((a * bohrConv : ℚ) : ℝ) (sym.getD 1)),
          some (sym.getD 1))) := by
  refine ⟨?_, ?_, ?_⟩
  · intro h0
    subst h0
    simp [processInertia, removeFirst]
  · intro h0
    simp [processInertia, h0]
  · intro a ha
    have hb : (0 : ℚ) ≤ a * bohrConv := by
      have hb0 : (0 : ℚ) ≤ bohrConv := by
        unfold bohrConv
        positivity
      exact mul_nonneg ha hb0
    have hsq : Real.sqrt (((a * bohrConv : ℚ) : ℝ) * ((a * bohrConv : ℚ) : ℝ)) =
        ((a * bohrConv : ℚ) : ℝ) := Real.sqrt_mul_self (by exact_mod_cast hb)
    simp [processInertia, removeFirst]
    push_cast at hsq
    exact hsq

/-- C1 counterexample: `c1log` records the eigenvalues [1, 0, 2] — all
non-negative with smallest equal to zero — yet `loadConformer` produces a
Nonlinear descriptor, because the code tests the *first* eigenvalue, not
the smallest. -/
theorem c1_counterexample :
    (∀ x ∈ ([1, 0, 2] : List ℚ), 0 ≤ x) ∧ (0 : ℚ) ∈ ([1, 0, 2] : List ℚ) ∧
    loadConformer none 0 1 false c1log =
      .ok { E0 := 0, modes := [Mode.nonlinRot [bohrConv, 0, 2 * bohrConv] 1],
            spinMultiplicity := 0, opticalIsomers := 1 } := by
  refine ⟨by norm_num, by simp, ?_⟩
  have he : parseFloats ((pysplit " Eigenvalues --    1.0   0.0   2.0").drop
      ((pysplit " Eigenvalues --    1.0   0.0   2.0").length - 3)) =
      .ok [1, 0, 2] := by
    norm_num +decide [parseFloats, parseFloat, parseMagnitude, readDigits,
      readSign, digitVal, Except.map, pysplit, pysplitAux]
  norm_num +decide [c1log, loadConformer, confLoop, confLineUpdate, inertiaStep,
    processInertia, removeFirst, he, Except.map]

/-- C1 witness: concrete classifications — [0, 2, 8] is Linear with the
geometric-mean moment, [5, 1, 2] is Nonlinear with all three converted, and
[0, 3, 3] is Linear with moment exactly 3·bohrConv; symmetry defaults
to 1. -/
theorem c1_rotor_classification_witness :
    processInertia [0, 2, 8] none =
      .ok (some (.linRot
        (Real.sqrt (((2 * bohrConv : ℚ) : ℝ) * ((8 * bohrConv : ℚ) : ℝ))) 1),
        some 1) ∧
    processInertia [5, 1, 2] none =
      .ok (some (.nonlinRot [5 * bohrConv, 1 * bohrConv, 2 * bohrConv] 1),
        some 1) ∧
    processInertia [0, 3, 3] none =
      .ok (some (.linRot ((3 * bohrConv : ℚ) : ℝ) 1), some 1) :=
  ⟨(c1_rotor_classification 0 2 8 none).1 rfl,
   (c1_rotor_classification 5 1 2 none).2.1 (by norm_num),
   (c1_rotor_classification 0 3 3 none).2.2 3 (by norm_num)⟩

/-! ### Hessian-scan lemmas -/

theorem fcmLoop_scan_no_banner (Nrows : ℕ) :
    ∀ (lines : List String) (F : Option Mat),
      (∀ l ∈ lines, isHessBanner l = false) →
      fcmLoop Nrows .scan F lines = .ok F := by
  intro lines
  induction lines with
  | nil => intro F _; rfl
  | cons l ls ih =>
    intro F h
    have hl := h l (by simp)
    simp only [fcmLoop, hl, Bool.false_eq_true, if_false]
    exact ih F (fun x hx => h x (List.mem_cons_of_mem _ hx))

theorem pysplit_empty : pysplit "" = [] := rfl

theorem fillRow_empty (Nrows j i : ℕ) (F : Mat) :
    fillRow Nrows j i F (pysplit "") = .ok F := rfl

theorem fcmRows_nil (Nrows i : ℕ) :
    ∀ (rem j : ℕ) (F : Mat), fcmRows Nrows i rem j F [] = .ok (F, []) := by
  intro rem
  induction rem with
  | zero => intro j F; rfl
  | succ rem ih =>
    intro j F
    simp only [fcmRows, List.headD_nil, fillRow_empty, List.tail_nil]
    exact ih (j + 1) F

theorem fcmChunks_nil (Nrows : ℕ) :
    ∀ (count i : ℕ) (F : Mat), fcmChunks Nrows count i F [] = .ok (F, []) := by
  intro count
  induction count with
  | zero => intro i F; rfl
  | succ count ih =>
    intro i F
    simp only [fcmChunks, List.tail_nil, fcmRows_nil]
    exact ih (i + 1) F

theorem fcmRows_mem (Nrows i : ℕ) :
    ∀ (rem j : ℕ) (F : Mat) (lines : List String) (M : Mat) (rest : List String),
      fcmRows Nrows i rem j F lines = .ok (M, rest) → ∀ x ∈ rest, x ∈ lines := by
  intro rem
  induction rem with
  | zero =>
    intro j F lines M rest h x hx
    simp only [fcmRows, Except.ok.injEq, Prod.mk.injEq] at h
    exact h.2 ▸ hx
  | succ rem ih =>
    intro j F lines M rest h x hx
    simp only [fcmRows] at h
    rcases hf : fillRow Nrows j i F (pysplit (lines.headD "")) with e | F2 <;>
      rw [hf] at h
    · simp at h
    · exact List.tail_subset lines (ih (j + 1) F2 lines.tail M rest h x hx)

theorem fcmChunks_mem (Nrows : ℕ) :
    ∀ (count i : ℕ) (F : Mat) (lines : List String) (M : Mat) (rest : List String),
      fcmChunks Nrows count i F lines = .ok (M, rest) → ∀ x ∈ rest, x ∈ lines := by
  intro count
  induction count with
  | zero =>
    intro i F lines M rest h x hx
    simp only [fcmChunks, Except.ok.injEq, Prod.mk.injEq] at h
    exact h.2 ▸ hx
  | succ count ih =>
    intro i F lines M rest h x hx
    simp only [fcmChunks] at h
    rcases hr : fcmRows Nrows i Nrows 0 F lines.tail with e | ⟨F2, rest2⟩ <;>
      rw [hr] at h
    · simp at h
    · have h1 := ih (i + 1) F2 rest2 M rest h x hx
      exact List.tail_subset lines (fcmRows_mem Nrows i Nrows 0 F lines.tail F2 rest2 hr x h1)

theorem fcmLoop_rows_bridge (Nrows : ℕ) :
    ∀ (k j rem i : ℕ) (F : Mat) (F0 : Option Mat) (lines : List String),
      j + k = Nrows → 1 ≤ k →
      fcmLoop Nrows (.rows rem i j F) F0 lines =
        (match fcmRows Nrows i k j F lines with
        | .error e => .error e
        | .ok (M, rest2) =>
          match rem with
          | 0 => fcmLoop Nrows .scan (some (scaleMat M)) rest2
          | rem2 + 1 => fcmLoop Nrows (.header rem2 (i + 1) M) F0 rest2) := by
  intro k
  induction k with
  | zero => intro j rem i F F0 lines _ h1; omega
  | succ k ih =>
    intro j rem i F F0 lines hjk _
    cases lines with
    | nil =>
      simp only [fcmLoop, fcmRows, List.headD_nil, fillRow_empty, List.tail_nil,
        fcmRows_nil]
      cases rem with
      | zero => rfl
      | succ rem2 => rfl
    | cons l ls =>
      simp only [fcmLoop, fcmRows, List.headD_cons, List.tail_cons]
      rcases hf : fillRow Nrows j i F (pysplit l) with e | F2
      · rfl
      · dsimp only
        by_cases hk : 1 ≤ k
        · have hlt : j + 1 < Nrows := by omega
          rw [if_pos hlt]
          exact ih (j + 1) rem i F2 F0 ls (by omega) hk
        · have hk0 : k = 0 := by omega
          subst hk0
          have hlt : ¬ j + 1 < Nrows := by omega
          rw [if_neg hlt]
          simp only [fcmRows]

theorem fcmLoop_header_bridge (Nrows : ℕ) (hN : 1 ≤ Nrows) :
    ∀ (rem i : ℕ) (F : Mat) (F0 : Option Mat) (lines : List String),
      fcmLoop Nrows (.header rem i F) F0 lines =
        (match fcmChunks Nrows (rem + 1) i F lines with
        | .error e => .error e
        | .ok (M, rest2) => fcmLoop Nrows .scan (some (scaleMat M)) rest2) := by
  intro rem
  induction rem with
  | zero =>
    intro i F F0 lines
    cases lines with
    | nil =>
      simp only [fcmLoop, fcmChunks, List.tail_nil, fcmRows_nil]
    | cons l ls =>
      simp only [fcmLoop, fcmChunks, List.tail_cons]
      rw [fcmLoop_rows_bridge Nrows Nrows 0 0 i F F0 ls (by omega) hN]
      rcases hr : fcmRows Nrows i Nrows 0 F ls with e | ⟨M, rest2⟩ <;> rfl
  | succ rem ih =>
    intro i F F0 lines
    cases lines with
    | nil =>
      simp only [fcmLoop, fcmChunks, List.tail_nil, fcmRows_nil, fcmChunks_nil]
    | cons l ls =>
      simp only [fcmLoop, fcmChunks, List.tail_cons]
      rw [fcmLoop_rows_bridge Nrows Nrows 0 (rem + 1) i F F0 ls (by omega) hN]
      rcases hr : fcmRows Nrows i Nrows 0 F ls with e | ⟨M, rest2⟩
      · rfl
      · exact ih (i + 1) M F0 rest2

/-- When `nChunks Nrows` is positive, `Nrows` is positive. -/
theorem nChunks_pos (Nrows rem : ℕ) (h : nChunks Nrows = rem + 1) : 1 ≤ Nrows := by
  by_contra hn
  have h0 : Nrows = 0 := by omega
  rw [h0] at h
  simp [nChunks] at h

/-! ### C3 -/

/-- C3 counterexample: a log whose only line is the orientation banner has
no Hessian banner, and yet `loadForceConstantMatrix` does not return None:
the preliminary atom-count scan never finds the 52-dash delimiter and the
Python call never returns (modelled by `PyErr.hang`). -/
theorem c3_counterexample :
    (∀ l ∈ ["Standard Nuclear Orientation"], isHessBanner l = false) ∧
    loadForceConstantMatrix ["Standard Nuclear Orientation"] = .error .hang :=
  ⟨by decide, rfl⟩

/-- C3 (amended): provided the preliminary atom-count scan terminates
(`getNumberOfAtoms` returns a value), `loadForceConstantMatrix` returns
None on every log with no Hessian banner; the scan's accumulated matrix
never influences the result once a banner is encountered (so earlier blocks
are superseded); and on the last banner — one followed by no further
banner line — the result is exactly the block parsed after it, scaled
entrywise by `hessianFactor` (the hardcoded
4.35974417e-18 / 5.291772108e-11² conversion). -/
theorem c3_last_hessian_block :
    (∀ (log : List String) (N : ℕ), getNumberOfAtoms log = some N →
      (∀ l ∈ log, isHessBanner l = false) →
      loadForceConstantMatrix log = .ok none) ∧
    (∀ (Nrows : ℕ) (F1 F2 : Option Mat) (lines : List String),
      (∃ l ∈ lines, isHessBanner l = true) →
      fcmLoop Nrows .scan F1 lines = fcmLoop Nrows .scan F2 lines) ∧
    (∀ (Nrows : ℕ) (F : Option Mat) (bl : String) (rest : List String),
      isHessBanner bl = true →
      (∀ l ∈ rest, isHessBanner l = false) →
      fcmLoop Nrows .scan F (bl :: rest) =
        (fcmChunks Nrows (nChunks Nrows) 0 (zeros Nrows) rest).map
          (fun p => some (scaleMat p.1))) := by
  refine ⟨?_, ?_, ?_⟩
  · intro log N hN hnb
    unfold loadForceConstantMatrix
    rw [hN]
    exact fcmLoop_scan_no_banner _ log none hnb
  · intro Nrows F1 F2 lines hex
    induction lines with
    | nil => simp at hex
    | cons l ls ih =>
      by_cases hb : isHessBanner l
      · simp only [fcmLoop, hb, if_true]
        rcases hc : nChunks Nrows with _ | rem
        · rfl
        · dsimp only
          have hN := nChunks_pos Nrows rem hc
          rw [fcmLoop_header_bridge Nrows hN rem 0 (zeros Nrows) F1 ls,
            fcmLoop_header_bridge Nrows hN rem 0 (zeros Nrows) F2 ls]
      · simp only [fcmLoop, hb, Bool.false_eq_true, if_false]
        rcases hex with ⟨x, hx, hbx⟩
        rcases List.mem_cons.1 hx with h1 | h2
        · rw [h1] at hbx
          exact absurd hbx (by simp [hb])
        · exact ih ⟨x, h2, hbx⟩
  · intro Nrows F bl rest hb hnb
    simp only [fcmLoop, hb, if_true]
    rcases hc : nChunks Nrows with _ | rem
    · dsimp only
      rw [fcmLoop_scan_no_banner Nrows rest _ hnb]
      simp [fcmChunks, Except.map]
    · dsimp only
      have hN := nChunks_pos Nrows rem hc
      rw [fcmLoop_header_bridge Nrows hN rem 0 (zeros Nrows) F rest]
      rcases hch : fcmChunks Nrows (rem + 1) 0 (zeros Nrows) rest with e | ⟨M, rest2⟩
      · simp [Except.map]
      · have hmem := fcmChunks_mem Nrows (rem + 1) 0 (zeros Nrows) rest M rest2 hch
        have hnb2 : ∀ l ∈ rest2, isHessBanner l = false :=
          fun l hl => hnb l (hmem l hl)
        dsimp only
        rw [fcmLoop_scan_no_banner Nrows rest2 _ hnb2]
        simp [Except.map]

/-- C3 witness: a banner-free log (with a terminating atom scan) yields
None; two scans differing only in their accumulated matrix coincide once a
banner appears; a final-banner log's result is the scaled parsed block. -/
theorem c3_last_hessian_block_witness :
    loadForceConstantMatrix ["Total job time:"] = .ok none ∧
    fcmLoop 3 .scan none ["Final Hessian."] =
      fcmLoop 3 .scan (some [[1]]) ["Final Hessian."] ∧
    fcmLoop 3 .scan none
        ("Final Hessian." ::
          ["h", " 1 0.1 0.2 0.3", " 2 0.4 0.5 0.6", " 3 0.7 0.8 0.9"]) =
      (fcmChunks 3 (nChunks 3) 0 (zeros 3)
          ["h", " 1 0.1 0.2 0.3", " 2 0.4 0.5 0.6", " 3 0.7 0.8 0.9"]).map
        (fun p => some (scaleMat p.1)) :=
  ⟨c3_last_hessian_block.1 ["Total job time:"] 0 rfl (by decide),
   c3_last_hessian_block.2.1 3 none (some [[1]]) ["Final Hessian."]
     ⟨"Final Hessian.", by simp, by decide⟩,
   c3_last_hessian_block.2.2 3 none "Final Hessian."
     ["h", " 1 0.1 0.2 0.3", " 2 0.4 0.5 0.6", " 3 0.7 0.8 0.9"]
     (by decide) (by decide)⟩

/-! ### Matrix dimension lemmas -/

theorem zeros_dims (n : ℕ) :
    (zeros n).length = n ∧ ∀ row ∈ zeros n, row.length = n := by
  constructor
  · simp [zeros]
  · intro row hrow
    rw [List.eq_of_mem_replicate hrow]
    simp

theorem scaleMat_dims (n : ℕ) (F : Mat)
    (h : F.length = n ∧ ∀ row ∈ F, row.length = n) :
    (scaleMat F).length = n ∧ ∀ row ∈ scaleMat F, row.length = n := by
  constructor
  · simp [scaleMat, h.1]
  · intro r hr
    rcases List.mem_map.1 hr with ⟨row, hrow, hmap⟩
    rw [← hmap]
    simp [h.2 row hrow]

theorem setEntry_dims (n : ℕ) (F : Mat) (j c : ℕ) (v : ℚ)
    (h : F.length = n ∧ ∀ row ∈ F, row.length = n) :
    (setEntry F j c v).length = n ∧ ∀ row ∈ setEntry F j c v, row.length = n := by
  unfold setEntry
  rcases hg : F.get? j with _ | row
  · exact h
  · constructor
    · simp [h.1]
    · intro r hr
      rcases List.mem_or_eq_of_mem_set hr with h1 | h2
      · exact h.2 r h1
      · rw [h2]
        simp [h.2 row (List.get?_mem hg)]

theorem fillRowAux_dims (n j base : ℕ) :
    ∀ (toks : List String) (k : ℕ) (F F2 : Mat),
      (F.length = n ∧ ∀ row ∈ F, row.length = n) →
      fillRowAux n j base F toks k = .ok F2 →
      F2.length = n ∧ ∀ row ∈ F2, row.length = n := by
  intro toks
  induction toks with
  | nil =>
    intro k F F2 h he
    simp only [fillRowAux, Except.ok.injEq] at he
    rw [← he]
    exact h
  | cons t ts ih =>
    intro k F F2 h he
    simp only [fillRowAux] at he
    rcases hp : parseFloat t with _ | v <;> rw [hp] at he
    · simp at he
    · dsimp only at he
      by_cases hlt : base + k < n
      · rw [if_pos hlt] at he
        exact ih (k + 1) _ F2 (setEntry_dims n F j (base + k) v h) he
      · rw [if_neg hlt] at he
        simp at he

theorem fillRow_dims (n j i : ℕ) (F F2 : Mat) (data : List String)
    (h : F.length = n ∧ ∀ row ∈ F, row.length = n)
    (he : fillRow n j i F data = .ok F2) :
    F2.length = n ∧ ∀ row ∈ F2, row.length = n :=
  fillRowAux_dims n j (6 * i) data.tail 0 F F2 h he

theorem fcmLoop_dims (Nrows : ℕ) :
    ∀ (lines : List String) (st : FcmState) (F0 : Option Mat),
      (∀ M0, F0 = some M0 → M0.length = Nrows ∧ ∀ row ∈ M0, row.length = Nrows) →
      (∀ rem i F, st = .header rem i F →
        F.length = Nrows ∧ ∀ row ∈ F, row.length = Nrows) →
      (∀ rem i j F, st = .rows rem i j F →
        F.length = Nrows ∧ ∀ row ∈ F, row.length = Nrows) →
      ∀ M, fcmLoop Nrows st F0 lines = .ok (some M) →
        M.length = Nrows ∧ ∀ row ∈ M, row.length = Nrows := by
  intro lines
  induction lines with
  | nil =>
    intro st F0 h0 hh hr M hM
    cases st with
    | scan =>
      simp only [fcmLoop, Except.ok.injEq] at hM
      exact h0 M hM
    | header rem i F =>
      simp only [fcmLoop, Except.ok.injEq, Option.some.injEq] at hM
      rw [← hM]
      exact scaleMat_dims _ _ (hh rem i F rfl)
    | rows rem i j F =>
      simp only [fcmLoop, Except.ok.injEq, Option.some.injEq] at hM
      rw [← hM]
      exact scaleMat_dims _ _ (hr rem i j F rfl)
  | cons l ls ih =>
    intro st F0 h0 hh hr M hM
    cases st with
    | scan =>
      by_cases hb : isHessBanner l
      · simp only [fcmLoop, hb, if_true] at hM
        rcases hc : nChunks Nrows with _ | rem <;> rw [hc] at hM <;> dsimp only at hM
        · refine ih .scan (some (scaleMat (zeros Nrows))) ?_ ?_ ?_ M hM
          · intro M0 hM0
            injection hM0 with hM0
            rw [← hM0]
            exact scaleMat_dims _ _ (zeros_dims _)
          · intro rem i F h; cases h
          · intro rem i j F h; cases h
        · refine ih (.header rem 0 (zeros Nrows)) F0 h0 ?_ ?_ M hM
          · intro rem2 i F h
            injection h with e1 e2 e3
            rw [← e3]
            exact zeros_dims _
          · intro rem2 i j F h; cases h
      · simp only [fcmLoop, hb, Bool.false_eq_true, if_false] at hM
        exact ih .scan F0 h0 (fun rem i F h => by cases h)
          (fun rem i j F h => by cases h) M hM
    | header rem i F =>
      simp only [fcmLoop] at hM
      refine ih (.rows rem i 0 F) F0 h0 (fun rem2 i2 F2 h => by cases h) ?_ M hM
      intro rem2 i2 j2 F2 h
      injection h with e1 e2 e3 e4
      rw [← e4]
      exact hh rem i F rfl
    | rows rem i j F =>
      simp only [fcmLoop] at hM
      rcases hf : fillRow Nrows j i F (pysplit l) with e | F2 <;> rw [hf] at hM
      · simp at hM
      · dsimp only at hM
        have hF2 := fillRow_dims Nrows j i F F2 (pysplit l) (hr rem i j F rfl) hf
        by_cases hlt : j + 1 < Nrows
        · rw [if_pos hlt] at hM
          refine ih (.rows rem i (j + 1) F2) F0 h0
            (fun rem2 i2 F3 h => by cases h) ?_ M hM
          intro rem2 i2 j2 F3 h
          injection h with e1 e2 e3 e4
          rw [← e4]; exact hF2
        · rw [if_neg hlt] at hM
          cases rem with
          | zero =>
            dsimp only at hM
            refine ih .scan (some (scaleMat F2)) ?_
              (fun rem2 i2 F3 h => by cases h)
              (fun rem2 i2 j2 F3 h => by cases h) M hM
            intro M0 hM0
            injection hM0 with hM0
            rw [← hM0]
            exact scaleMat_dims _ _ hF2
          | succ rem2 =>
            dsimp only at hM
            refine ih (.header rem2 (i + 1) F2) F0 h0 ?_
              (fun rem3 i2 j2 F3 h => by cases h) M hM
            intro rem3 i2 F3 h
            injection h with e1 e2 e3
            rw [← e3]; exact hF2

/-! ### Structured-log lemmas for the atom-count and geometry scans -/

theorem gnaLoop_scan_append (pre rest : List String)
    (h : ∀ l ∈ pre, strContains l orientationBanner = false) :
    gnaLoop .scan (pre ++ rest) = gnaLoop .scan rest := by
  induction pre with
  | nil => rfl
  | cons p ps ih =>
    have hp := h p (by simp)
    simp only [List.cons_append, gnaLoop, hp, Bool.false_eq_true, if_false]
    exact ih (fun x hx => h x (List.mem_cons_of_mem _ hx))

theorem gnaLoop_count (d : String) (post : List String)
    (hd : strContains d atomCountDelim = true) :
    ∀ (rows : List String),
      (∀ r ∈ rows, strContains r atomCountDelim = false) →
      ∀ n, gnaLoop (.count n) (rows ++ d :: post) =
        if n + rows.length = 0 then gnaLoop .scan post
        else some (n + rows.length) := by
  intro rows
  induction rows with
  | nil =>
    intro _ n
    simp only [List.nil_append, gnaLoop, hd, if_true, List.length_nil]
    simp
  | cons r rs ih =>
    intro hrows n
    have hr := hrows r (by simp)
    simp only [List.cons_append, gnaLoop, hr, Bool.false_eq_true, if_false]
    rw [List.append_eq, ih (fun x hx => hrows x (List.mem_cons_of_mem _ hx)) (n + 1)]
    have harith : n + 1 + rs.length = n + (r :: rs).length := by
      simp [List.length_cons]
      omega
    rw [harith]

theorem drop_append_len {α : Type} (pre xs : List α) (n : ℕ) :
    (pre ++ xs).drop (pre.length + n) = xs.drop n := by
  induction pre with
  | nil => simp
  | cons p ps ih =>
    simp only [List.cons_append, List.length_cons]
    rw [show ps.length + 1 + n = (ps.length + n) + 1 by omega,
      List.drop_succ_cons]
    exact ih

theorem getD_append_len (pre xs : List String) (n : ℕ) :
    (pre ++ xs).getD (pre.length + n) "" = xs.getD n "" := by
  induction pre with
  | nil => simp
  | cons p ps ih =>
    simp only [List.cons_append, List.length_cons]
    rw [show ps.length + 1 + n = (ps.length + n) + 1 by omega,
      List.getD_cons_succ]
    exact ih

theorem getD_mem_of_lt :
    ∀ (xs : List String) (k : ℕ), k < xs.length → xs.getD k "" ∈ xs := by
  intro xs
  induction xs with
  | nil => intro k h; simp at h
  | cons x xsl ih =>
    intro k h
    cases k with
    | zero => simp [List.getD_cons_zero]
    | succ k2 =>
      rw [List.getD_cons_succ]
      exact List.mem_cons_of_mem _ (ih k2 (by simp at h; omega))

theorem geomScanAux_skip (log : List String) :
    ∀ (k i : ℕ), i ≤ k →
      (∀ j, i ≤ j → j < k → strContains (log.getD j "") orientationBanner = false) →
      geomScanAux log k = geomScanAux log i := by
  intro k
  induction k with
  | zero =>
    intro i hi _
    have h0 : i = 0 := by omega
    rw [h0]
  | succ k ih =>
    intro i hi hno
    by_cases hik : i = k + 1
    · rw [hik]
    · have hik2 : i ≤ k := by omega
      have hjk := hno k (by omega) (by omega)
      simp only [geomScanAux, hjk, Bool.false_eq_true, if_false]
      exact ih i hik2 (fun j hj1 hj2 => hno j hj1 (by omega))

theorem geomRows_structured (d : String) (post : List String)
    (hd : strContains d geomDelim = true) :
    ∀ (rows : List String),
      (∀ r ∈ rows, strContains r geomDelim = false ∧ (parseGeomRow r).isOk = true) →
      ∃ out, geomRows (rows ++ d :: post) = .ok out ∧ out.length = rows.length := by
  intro rows
  induction rows with
  | nil =>
    intro _
    refine ⟨[], ?_, rfl⟩
    simp [geomRows, hd]
  | cons r rs ih =>
    intro h
    obtain ⟨hnd, hok⟩ := h r (by simp)
    rcases hp : parseGeomRow r with e | v
    · rw [hp] at hok
      simp [Except.isOk, Except.toBool] at hok
    · obtain ⟨out, hout, hlen⟩ := ih (fun x hx => h x (List.mem_cons_of_mem _ hx))
      refine ⟨v :: out, ?_, by simp [hlen]⟩
      simp only [List.cons_append, geomRows, hnd, Bool.false_eq_true, if_false, hp]
      rw [List.append_eq, hout]
      rfl

/-! ### C7 -/

/-- C7 counterexample: `c7log` has two geometry blocks of different sizes;
`getNumberOfAtoms` counts the first (2 atoms) while `loadGeometry` parses
the last (3 atoms), so the two disagree. -/
theorem c7_counterexample :
    getNumberOfAtoms c7log = some 2 ∧
    (loadGeometry "p" gemEx c7log).map (fun r => r.2.1.length) = .ok 3 := by
  constructor
  · rfl
  · rfl

/-- C7 (amended): whenever `loadForceConstantMatrix` returns a matrix, the
matrix is square of dimension `3 * N` where `N` is `getNumberOfAtoms`'s
count.  `getNumberOfAtoms` counts the *first* geometry block while
`loadGeometry` parses the *last*, so the two atom counts agree on a log
with a single well-formed geometry block — completion banner present, data
rows free of both dash delimiters and individually parseable, the block
closed by a delimiter line carrying both dash runs — but not in general. -/
theorem c7_dimensions :
    (∀ (log : List String) (M : Mat),
      loadForceConstantMatrix log = .ok (some M) →
      ∃ N, getNumberOfAtoms log = some N ∧ M.length = 3 * N ∧
        ∀ row ∈ M, row.length = 3 * N) ∧
    (∀ (path : String) (gem : String → ℚ × ℤ) (pre rows post : List String)
       (b hd1 hd2 d : String),
      strContains b orientationBanner = true →
      (∀ l ∈ pre, strContains l orientationBanner = false) →
      (∀ l ∈ hd1 :: hd2 :: (rows ++ d :: post),
        strContains l orientationBanner = false) →
      (∀ r ∈ rows, strContains r atomCountDelim = false) →
      (∀ r ∈ rows, strContains r geomDelim = false ∧ (parseGeomRow r).isOk = true) →
      strContains d atomCountDelim = true →
      strContains d geomDelim = true →
      rows ≠ [] →
      (∃ l ∈ pre ++ b :: hd1 :: hd2 :: (rows ++ d :: post),
        strContains l jobTimeBanner = true) →
      getNumberOfAtoms (pre ++ b :: hd1 :: hd2 :: (rows ++ d :: post)) =
        some rows.length ∧
      ∃ cs ns ms,
        loadGeometry path gem (pre ++ b :: hd1 :: hd2 :: (rows ++ d :: post)) =
          .ok (cs, ns, ms) ∧ ns.length = rows.length) := by
  constructor
  · intro log M h
    unfold loadForceConstantMatrix at h
    rcases hg : getNumberOfAtoms log with _ | N <;> rw [hg] at h
    · simp at h
    · refine ⟨N, rfl, ?_⟩
      have hd := fcmLoop_dims (3 * N) log .scan none
        (fun M0 h0 => by cases h0) (fun rem i F h0 => by cases h0)
        (fun rem i j F h0 => by cases h0) M h
      exact ⟨hd.1, hd.2⟩
  · intro path gem pre rows post b hd1 hd2 d hb hpre hafter hcnt hgeo hdc hdg hne hjob
    have hlen0 : rows.length ≠ 0 := fun h => hne (List.length_eq_zero.1 h)
    constructor
    · unfold getNumberOfAtoms
      rw [gnaLoop_scan_append pre _ hpre]
      have h1 : gnaLoop .scan (b :: hd1 :: hd2 :: (rows ++ d :: post)) =
          gnaLoop (.count 0) (rows ++ d :: post) := by
        have e1 : gnaLoop .scan (b :: hd1 :: hd2 :: (rows ++ d :: post)) =
            if strContains b orientationBanner then
              gnaLoop (.skip 2) (hd1 :: hd2 :: (rows ++ d :: post))
            else gnaLoop .scan (hd1 :: hd2 :: (rows ++ d :: post)) := rfl
        rw [e1, if_pos hb]
        simp [gnaLoop]
      rw [h1, gnaLoop_count d post hdc rows hcnt 0]
      simp only [Nat.zero_add]
      rw [if_neg hlen0]
    · have hany : (pre ++ b :: hd1 :: hd2 :: (rows ++ d :: post)).any
          (fun l => strContains l jobTimeBanner) = true := by
        rcases hjob with ⟨l, hl, hcon⟩
        exact List.any_eq_true.2 ⟨l, hl, hcon⟩
      obtain ⟨out, hout, holen⟩ := geomRows_structured d post hdg rows hgeo
      have houtne : out.isEmpty = false := by
        rcases out with _ | ⟨o, os⟩
        · rw [holen.symm] at hlen0
          simp at hlen0
        · rfl
      set log := pre ++ b :: hd1 :: hd2 :: (rows ++ d :: post) with hlog
      have hlog2 : log = (pre ++ [b]) ++ (hd1 :: hd2 :: (rows ++ d :: post)) := by
        simp [hlog]
      have hloglen : log.length =
          (pre.length + 1) + (hd1 :: hd2 :: (rows ++ d :: post)).length := by
        rw [hlog2, List.length_append]
        congr 1
        simp
      have hskip : geomScanAux log log.length = geomScanAux log (pre.length + 1) := by
        refine geomScanAux_skip log log.length (pre.length + 1) (by omega) ?_
        intro j hj1 hj2
        obtain ⟨m, hm⟩ : ∃ m, j = (pre.length + 1) + m := ⟨j - (pre.length + 1), by omega⟩
        have hgd : log.getD j "" = (hd1 :: hd2 :: (rows ++ d :: post)).getD m "" := by
          rw [hlog2, hm]
          have : (pre ++ [b]).length = pre.length + 1 := by simp
          rw [← this]
          exact getD_append_len _ _ m
        rw [hgd]
        have hmlt : m < (hd1 :: hd2 :: (rows ++ d :: post)).length := by omega
        exact hafter _ (getD_mem_of_lt _ m hmlt)
      have hgetb : log.getD pre.length "" = b := by
        have h := getD_append_len pre (b :: hd1 :: hd2 :: (rows ++ d :: post)) 0
        rw [hlog]
        simpa using h
      have hdrop : log.drop (pre.length + 3) = rows ++ d :: post := by
        have h := drop_append_len pre (b :: hd1 :: hd2 :: (rows ++ d :: post)) 3
        rw [hlog]
        simpa using h
      have hscan : geomScanAux log log.length = .ok out := by
        rw [hskip]
        simp only [geomScanAux, hgetb, hb, if_true, hdrop, hout]
        rw [houtne]
        simp
      refine ⟨out.map (fun r => r.2), out.map (fun r => (gem r.1).2),
        out.map (fun r => (gem r.1).1), ?_, by simp [holen]⟩
      unfold loadGeometry
      rw [if_neg (by simp [hany]), hscan]
      dsimp only
      rw [houtne]
      simp

theorem c7_dimensions_witness :
    (∃ N, getNumberOfAtoms waLog = some N ∧ (scaleMat (zeros 3)).length = 3 * N ∧
      ∀ row ∈ scaleMat (zeros 3), row.length = 3 * N) ∧
    (getNumberOfAtoms (["Total job time:"] ++
        "Standard Nuclear Orientation" :: "h1" :: "h2" :: (wbRows ++ dash52 :: [])) =
      some wbRows.length ∧
     ∃ cs ns ms,
       loadGeometry "p" gemEx (["Total job time:"] ++
         "Standard Nuclear Orientation" :: "h1" :: "h2" :: (wbRows ++ dash52 :: [])) =
         .ok (cs, ns, ms) ∧ ns.length = wbRows.length) := by
  constructor
  · exact c7_dimensions.1 waLog (scaleMat (zeros 3)) rfl
  · exact c7_dimensions.2 "p" gemEx ["Total job time:"] wbRows []
      "Standard Nuclear Orientation" "h1" "h2" dash52
      rfl (by decide) (by decide) (by decide) (by decide) rfl rfl (by decide)
      ⟨"Total job time:", by decide, rfl⟩

end Qchem
